import Mathlib

/-!
# Verification of the Promiseify adapter (settings-manager-example)

Shallow embedding of the promiseification library (`src/unnamed/part_000`):
the JavaScript value model needed by the adapter (`typeof` dispatch,
truthiness), the capability-inspection primitives (`isFunction`, `isObject`,
`getAllFunctionNames`), the variable-arity argument classification performed
by the adapted closure in `doPromiseify`, the injected completion handlers
(`onSuccessPromiseified` / `onErrorPromiseified`) together with the mutable
`options.outcomeRedirector` slot they share, the single-resolution promise
state machine, and the object-facade adaptation path
(`only` / `include` / `exclude` selection and in-place method replacement).
-/

/-- JavaScript values, as far as the adapter's dispatch observes them:
the adapter only ever branches on `typeof`, on truthiness, and on reference
identity of callables.  Callables carry an identifier so that distinct
functions are distinct values; `vWrapped f` is the fresh closure that
`doPromiseify` returns for the function `f`; `vInjectedSuccess` /
`vInjectedError` are the two handlers the adapter pushes onto the forwarded
argument list.  Objects and arrays carry a reference identifier. -/
inductive Value where
  | vUndefined : Value
  | vNull : Value
  | vBool : Bool → Value
  | vNum : Int → Value
  | vStr : String → Value
  | vFun : Nat → Value
  | vWrapped : Value → Value
  | vInjectedSuccess : Value
  | vInjectedError : Value
  | vArr : Nat → Value
  | vObj : Nat → Value
deriving DecidableEq, Repr

/-- `getType(o) { return typeof(o); }` — note that in JavaScript
`typeof null === 'object'` and `typeof [] === 'object'`. -/
def getType : Value → String
  | .vUndefined => "undefined"
  | .vNull => "object"
  | .vBool _ => "boolean"
  | .vNum _ => "number"
  | .vStr _ => "string"
  | .vFun _ => "function"
  | .vWrapped _ => "function"
  | .vInjectedSuccess => "function"
  | .vInjectedError => "function"
  | .vArr _ => "object"
  | .vObj _ => "object"

/-- `isFunction(candidate) { return 'function' === getType(candidate) ||
candidate instanceof Function; }` — in this model every `instanceof Function`
value already has `typeof` `"function"`, so the disjunct is absorbed. -/
def isFunction (candidate : Value) : Bool :=
  getType candidate == "function"

/-- `isObject(candidate) { return 'object' === getType(candidate); }` —
true for `null` and for arrays, since `typeof` reports `'object'` for both. -/
def isObject (candidate : Value) : Bool :=
  getType candidate == "object"

/-- JavaScript truthiness (`!!v`): `undefined`, `null`, `false`, `0` and the
empty string are falsy; functions, objects and arrays are truthy. -/
def truthy : Value → Bool
  | .vUndefined => false
  | .vNull => false
  | .vBool b => b
  | .vNum n => n != 0
  | .vStr s => s != ""
  | .vFun _ => true
  | .vWrapped _ => true
  | .vInjectedSuccess => true
  | .vInjectedError => true
  | .vArr _ => true
  | .vObj _ => true

/-- Indexed access `arguments[i]` on an argument list: any out-of-range
index — including the negative indices `arguments[-1]`, `arguments[-2]`
reached when the closure is called with zero arguments — yields
`undefined`. -/
def argAt (args : List Value) (i : Int) : Value :=
  if 0 ≤ i then args.getD i.toNat Value.vUndefined else Value.vUndefined

/-- The outcome of the argument-classification pass at the top of the
adapted closure: the detected user success/failure handlers and the
remaining (forwarded) argument list. -/
structure HandlerSplit where
  successHandler : Option Value
  failureHandler : Option Value
  executionArguments : List Value
deriving DecidableEq, Repr

/-- The argument classification of the adapted closure (`doPromiseify`,
function branch).  Mirrors the source control flow: the
`if (0 === arguments.length)` statement has an empty body and *no* `else`,
so a zero-argument call also enters the `else` of
`if (1 === arguments.length)`, where `arguments[-1]` / `arguments[-2]`
are `undefined` and hence not functions — no handler is detected and the
empty list is forwarded unchanged. -/
def classifyArguments (args : List Value) : HandlerSplit :=
  if args.length = 1 then
    if isFunction (argAt args 0) then
      { successHandler := some (argAt args 0)
        failureHandler := none
        executionArguments := [] }
    else
      { successHandler := none, failureHandler := none, executionArguments := args }
  else
    if isFunction (argAt args ((args.length : Int) - 1))
        && isFunction (argAt args ((args.length : Int) - 2)) then
      { successHandler := some (argAt args ((args.length : Int) - 2))
        failureHandler := some (argAt args ((args.length : Int) - 1))
        executionArguments := args.take (args.length - 2) }
    else if isFunction (argAt args ((args.length : Int) - 1)) then
      { successHandler := some (argAt args ((args.length : Int) - 1))
        failureHandler := none
        executionArguments := args.take (args.length - 1) }
    else
      { successHandler := none, failureHandler := none, executionArguments := args }

/-- An outcome redirector (`options.outcomeRedirector`): a predicate over
the result-argument list passed to an injected handler.  The source invokes
it through `execute(fn, args)`, i.e. applied to the whole argument list, and
coerces the result with `!!`. -/
abbrev Redirector := List Value → Bool

/-- `function trueRedirector() { return true; }` — the default installed by
`onSuccessPromiseified` when no redirector is present. -/
def trueRedirector : Redirector := fun _ => true

/-- `function falseRedirector() { return false; }` — the default installed by
`onErrorPromiseified` when no redirector is present. -/
def falseRedirector : Redirector := fun _ => false

/-- The redirector of `Promiseify.nodeStyle`: `error => !error`, applied via
`execute` so that `error` is bound to the first result argument (or
`undefined` when absent). -/
def nodeRedirector : Redirector := fun args => !truthy (argAt args 0)

/-- A settlement of the Deferred Value produced by an adapted call:
`executeSuccess` resolves with the result-argument list, `executeFailure`
rejects with the result-argument list, and a synchronous throw out of the
promise executor rejects with the thrown error. -/
inductive Settlement where
  | fulfilledWith : List Value → Settlement
  | rejectedWithArgs : List Value → Settlement
  | rejectedWithError : Value → Settlement
deriving DecidableEq, Repr

/-- The state of a single-resolution promise: `none` is pending, `some s`
is settled with `s` and terminal. -/
abbrev PromiseState := Option Settlement

/-- Settlement attempt on a single-resolution promise: only the first
attempt takes effect; any attempt on an already-settled promise is a
no-op. -/
def settle (st : PromiseState) (s : Settlement) : PromiseState :=
  match st with
  | none => some s
  | some _ => st

/-- The state visible to the two injected handlers of one adapted call:
the `options.outcomeRedirector` slot of the (shared, mutable) options
record, and the promise created for this invocation. -/
structure CallState where
  outcomeRedirector : Option Redirector
  promise : PromiseState

/-- A firing of one of the two injected trailing handlers by the original
callable: `success` is `onSuccessPromiseified`, `failure` is
`onErrorPromiseified`, each carrying the result-argument list. -/
inductive FireEvent where
  | success : List Value → FireEvent
  | failure : List Value → FireEvent
deriving DecidableEq, Repr

/-- One injected-handler firing (`onSuccessPromiseified` /
`onErrorPromiseified`).  Faithful to the source:
`options.outcomeRedirector = options.outcomeRedirector || default` first
*writes the default back into the shared options record* when the slot is
unset (the success handler's default always returns true, the error
handler's always returns false), and then
`!!execute(options.outcomeRedirector, args) ? executeSuccess(args)
: executeFailure(args)` settles the promise accordingly. -/
def fireInjected (st : CallState) (e : FireEvent) : CallState :=
  match e with
  | .success args =>
      let r := st.outcomeRedirector.getD trueRedirector
      if r args then
        { outcomeRedirector := some r, promise := settle st.promise (.fulfilledWith args) }
      else
        { outcomeRedirector := some r, promise := settle st.promise (.rejectedWithArgs args) }
  | .failure args =>
      let r := st.outcomeRedirector.getD falseRedirector
      if r args then
        { outcomeRedirector := some r, promise := settle st.promise (.fulfilledWith args) }
      else
        { outcomeRedirector := some r, promise := settle st.promise (.rejectedWithArgs args) }

/-- Runs a sequence of injected-handler firings against a call state. -/
def runFires (st : CallState) (events : List FireEvent) : CallState :=
  events.foldl fireInjected st

/-- What the original callable does, once invoked by the promise executor:
it fires the injected handlers some number of times in some order, and then
either returns normally or throws.  (A synchronous throw aborts the
original, so every firing precedes the throw.) -/
structure OriginalBehavior where
  fires : List FireEvent
  thrown : Option Value

/-- One invocation of an adapted callable, from the point the promise
executor runs: the injected handlers fire per the original's behavior, and
if the original throws, the JavaScript `Promise` constructor catches the
exception and attempts to reject the promise with it (a no-op when the
promise is already settled).  The adapted call itself always returns the
promise; the exception never escapes synchronously. -/
def runAdaptedCall (redirector : Option Redirector) (beh : OriginalBehavior) : CallState :=
  let st := runFires { outcomeRedirector := redirector, promise := none } beh.fires
  match beh.thrown with
  | some e => { st with promise := settle st.promise (.rejectedWithError e) }
  | none => st

/-- A sequence of invocations of adapted callables that share one options
record (all methods wrapped from one object share the `options` argument,
and a single adapted function's closure reuses it across invocations).
Returns the final state of the shared `outcomeRedirector` slot and the
promise produced by each invocation, in order. -/
def runInvocations (redirector : Option Redirector) (behs : List OriginalBehavior) :
    Option Redirector × List PromiseState :=
  behs.foldl
    (fun acc beh =>
      let st := runAdaptedCall acc.1 beh
      (st.outcomeRedirector, acc.2 ++ [st.promise]))
    (redirector, [])

/-- The two completion handlers the adapter appends to the forwarded
argument list (`onSuccessPromiseified`, then `onErrorPromiseified`). -/
def injectedTrailingHandlers : List Value :=
  [Value.vInjectedSuccess, Value.vInjectedError]

/-- The argument list that `target.apply(context, executionArguments)`
passes to the original callable: the forwarded arguments followed by the
two injected handlers. -/
def originalCallArguments (args : List Value) : List Value :=
  (classifyArguments args).executionArguments ++ injectedTrailingHandlers

/-- The trace of invocations of the original callable performed during one
adapted call: the executor of `new Promise(...)` runs synchronously inside
the adapted call and contains exactly one `target.apply`. -/
def originalInvocations (args : List Value) : List (List Value) :=
  [originalCallArguments args]

/-- Which branch `doPromiseify` takes for a target: wrap a single callable,
walk an object, or `throw 'Cannot promiseify type: ' + getType(target)`. -/
inductive DispatchResult where
  | functionBranch : DispatchResult
  | objectBranch : DispatchResult
  | thrown : String → DispatchResult
deriving DecidableEq, Repr

/-- The top-level type dispatch of `doPromiseify`:
`if (isFunction(target)) {...} else if (isObject(target)) {...}
else { throw 'Cannot promiseify type: ' + getType(target); }`. -/
def promiseifyDispatch (target : Value) : DispatchResult :=
  if isFunction target then .functionBranch
  else if isObject target then .objectBranch
  else .thrown ("Cannot promiseify type: " ++ getType target)

/-- `Object.getOwnPropertyNames(Object.getPrototypeOf(new Object()))` —
the own property names of `Object.prototype`, captured once at module load
and used to exclude members defined by the universal base object type. -/
def OBJECT_PROTOTYPE_FUNCTION_NAMES : List String :=
  ["constructor", "__defineGetter__", "__defineSetter__", "hasOwnProperty",
   "__lookupGetter__", "__lookupSetter__", "isPrototypeOf",
   "propertyIsEnumerable", "toString", "valueOf", "__proto__",
   "toLocaleString"]

/-- One object of a prototype chain, as its own property table:
`Object.getOwnPropertyNames` enumerates the names, `target[name]` reads the
values. -/
abbrev Level := List (String × Value)

/-- `Object.getOwnPropertyNames(target)` for one chain level. -/
def ownNames (level : Level) : List String :=
  level.map Prod.fst

/-- `target[name]` for one chain level: the own property value, or
`undefined` when the name is absent. -/
def ownGet (level : Level) (name : String) : Value :=
  (level.lookup name).getD Value.vUndefined

/-- One iteration of the `do`/`while` loop of `getAllFunctionNames`:
filter the level's own property names by truthiness of the value
(`!!(target[name])`), by `isFunction(target[name])`, by absence from
`OBJECT_PROTOTYPE_FUNCTION_NAMES` and by absence from the names collected
so far, then append them to the accumulator. -/
def collectLevel (functionNames : List String) (level : Level) : List String :=
  functionNames ++
    (ownNames level).filter (fun name =>
      truthy (ownGet level name) && isFunction (ownGet level name)
        && !(OBJECT_PROTOTYPE_FUNCTION_NAMES.contains name)
        && !(functionNames.contains name))

/-- `getAllFunctionNames(target)` on a structured target, represented by
its prototype chain (the successive values of `target` through the
`do { ... } while (target = Object.getPrototypeOf(target))` loop): collect
the deduplicated callable names level by level, then `.sort()` the result
lexicographically. -/
def getAllFunctionNames (chain : List Level) : List String :=
  List.insertionSort (· ≤ ·) (chain.foldl collectLevel [])

/-- A structured target for the object branch of `doPromiseify`: a
reference identity (JavaScript object identity — the branch mutates the
target in place and returns the *same* object) and its own property
table.  The model covers plain objects, whose prototype contributes no
names beyond those of `Object.prototype` (all excluded). -/
structure JSObj where
  ref : Nat
  props : List (String × Value)
deriving DecidableEq, Repr

/-- Property read `o[name]`. -/
def objGet (o : JSObj) (name : String) : Value :=
  ownGet o.props name

/-- Own-property write on a property table: overwrite in place when the
name exists, append otherwise. -/
def setProp : List (String × Value) → String → Value → List (String × Value)
  | [], name, v => [(name, v)]
  | (m, w) :: rest, name, v =>
      if m = name then (m, v) :: rest else (m, w) :: setProp rest name v

/-- Property write `o[name] = v` (the reference identity is unchanged — the
object is mutated in place). -/
def objSet (o : JSObj) (name : String) (v : Value) : JSObj :=
  { o with props := setProp o.props name v }

/-- The options record of `Promiseify` (`only` / `include` / `exclude` /
`outcomeRedirector`, all optional).  `include` and `exclude` are spelled
`includeNames` / `excludeNames` here. -/
structure Options where
  only : Option (List String) := none
  includeNames : Option (List String) := none
  excludeNames : Option (List String) := none
  outcomeRedirector : Option Redirector := none

/-- The working name set of the object branch (`doPromiseify`, lines
240–264): start from all function names; if `only` is present it is taken
verbatim; otherwise `include` (when present) rebuilds the set from a clean
slate, keeping names that are not yet present and currently resolve to a
callable, and `exclude` (when present) filters each excluded name out. -/
def computeTargetFunctions (o : JSObj) (options : Options) : List String :=
  match options.only with
  | some names => names
  | none =>
      let targetFunctions :=
        match options.includeNames with
        | some included =>
            included.foldl
              (fun acc name =>
                if !(acc.contains name) && isFunction (objGet o name) then acc ++ [name]
                else acc)
              []
        | none => getAllFunctionNames [o.props]
      match options.excludeNames with
      | some excluded =>
          excluded.foldl
            (fun acc name => acc.filter (fun candidate => candidate != name))
            targetFunctions
      | none => targetFunctions

/-- One iteration of the wrapping loop of the object branch:
`if (isFunction(promisifiedObject[name]))
{ promisifiedObject[name] = doPromiseify(promisifiedObject[name], options,
target); }` — the current value is re-checked for callability immediately
before being replaced by its wrapped form; non-callable names are skipped
silently. -/
def wrapStep (acc : JSObj) (name : String) : JSObj :=
  if isFunction (objGet acc name) then
    objSet acc name (Value.vWrapped (objGet acc name))
  else acc

/-- The object branch of `doPromiseify`: compute the working name set, wrap
each selected name that currently resolves to a callable, and return the
same (mutated) object. -/
def promiseifyObject (o : JSObj) (options : Options) : JSObj :=
  (computeTargetFunctions o options).foldl wrapStep o

/-- C1. For every argument list `A` of an adapted call: empty `A` forwards
unchanged with no handlers; a sole callable element is the success handler
and nothing is forwarded; a sole non-callable element is forwarded with no
handlers; with two or more elements, two trailing callables are success
(second-to-last) and failure (last) and are stripped, a single trailing
callable is the success handler and is stripped, and otherwise `A` is
forwarded unchanged with no handlers. -/
theorem classifyArguments_spec (args : List Value) :
    (args = [] →
      classifyArguments args =
        { successHandler := none, failureHandler := none, executionArguments := args }) ∧
    (∀ a, args = [a] →
      (isFunction a = true →
        classifyArguments args =
          { successHandler := some a, failureHandler := none, executionArguments := [] }) ∧
      (isFunction a = false →
        classifyArguments args =
          { successHandler := none, failureHandler := none, executionArguments := args })) ∧
    (2 ≤ args.length →
      (isFunction (argAt args ((args.length : Int) - 1)) = true →
        isFunction (argAt args ((args.length : Int) - 2)) = true →
        classifyArguments args =
          { successHandler := some (argAt args ((args.length : Int) - 2))
            failureHandler := some (argAt args ((args.length : Int) - 1))
            executionArguments := args.take (args.length - 2) }) ∧
      (isFunction (argAt args ((args.length : Int) - 1)) = true →
        isFunction (argAt args ((args.length : Int) - 2)) = false →
        classifyArguments args =
          { successHandler := some (argAt args ((args.length : Int) - 1))
            failureHandler := none
            executionArguments := args.take (args.length - 1) }) ∧
      (isFunction (argAt args ((args.length : Int) - 1)) = false →
        classifyArguments args =
          { successHandler := none, failureHandler := none, executionArguments := args })) := by
  refine ⟨?_, ?_, ?_⟩
  · rintro rfl
    rfl
  · rintro a rfl
    constructor
    · intro hf
      simp [classifyArguments, argAt, hf]
    · intro hf
      simp [classifyArguments, argAt, hf]
  · intro hlen
    have hne : args.length ≠ 1 := by omega
    refine ⟨?_, ?_, ?_⟩
    · intro h1 h2
      simp [classifyArguments, hne, h1, h2]
    · intro h1 h2
      simp [classifyArguments, hne, h1, h2]
    · intro h1
      simp [classifyArguments, hne, h1]

/-- Witness for C1 at concrete inputs: a three-argument call whose last two
elements are callable strips both and forwards the first argument. -/
theorem classifyArguments_spec_witness :
    classifyArguments [Value.vNum 7, Value.vFun 0, Value.vFun 1] =
      { successHandler := some (Value.vFun 0)
        failureHandler := some (Value.vFun 1)
        executionArguments := [Value.vNum 7] } :=
  ((classifyArguments_spec [Value.vNum 7, Value.vFun 0, Value.vFun 1]).2.2
    (by decide)).1 (by decide) (by decide)

/-- A settled promise can never be re-settled: any further injected-handler
firings leave the settlement unchanged. -/
theorem runFires_of_settled (events : List FireEvent) :
    ∀ (st : CallState) (s : Settlement), st.promise = some s →
      (runFires st events).promise = some s := by
  induction events with
  | nil => intro st s h; simpa [runFires] using h
  | cons e rest ih =>
      intro st s h
      have hstep : (fireInjected st e).promise = some s := by
        cases e <;> simp [fireInjected, h, settle]
      simpa [runFires] using ih (fireInjected st e) s hstep

/-- An injected-handler firing on a pending promise always settles it (the
redirector's verdict selects fulfillment or rejection, but one of the two
always happens). -/
theorem fireInjected_settles (st : CallState) (e : FireEvent) (h : st.promise = none) :
    ∃ s : Settlement, (fireInjected st e).promise = some s := by
  cases e with
  | success args =>
      by_cases hr : (st.outcomeRedirector.getD trueRedirector) args = true
      · exact ⟨.fulfilledWith args, by simp [fireInjected, hr, h, settle]⟩
      · exact ⟨.rejectedWithArgs args, by simp [fireInjected, hr, h, settle]⟩
  | failure args =>
      by_cases hr : (st.outcomeRedirector.getD falseRedirector) args = true
      · exact ⟨.fulfilledWith args, by simp [fireInjected, hr, h, settle]⟩
      · exact ⟨.rejectedWithArgs args, by simp [fireInjected, hr, h, settle]⟩

/-- C9. Each adapted invocation produces exactly one Deferred Value, whose
state space is pending or one of the terminal settlements: with no
injected-handler firing it stays pending; the first firing settles it; and
no matter how many further firings follow, in whatever combination — and
even if the original then throws — the settlement produced by the first
firing is final (every later settlement attempt is a no-op). -/
theorem adaptedCall_settles_once (redirector : Option Redirector)
    (e : FireEvent) (rest : List FireEvent) :
    (runFires { outcomeRedirector := redirector, promise := none } []).promise = none
  ∧ ∃ s : Settlement,
      (fireInjected { outcomeRedirector := redirector, promise := none } e).promise = some s
    ∧ (runFires { outcomeRedirector := redirector, promise := none }
        (e :: rest)).promise = some s
    ∧ ∀ thrown : Option Value,
        (runAdaptedCall redirector { fires := e :: rest, thrown := thrown }).promise =
          some s := by
  refine ⟨rfl, ?_⟩
  obtain ⟨s, hs⟩ :=
    fireInjected_settles { outcomeRedirector := redirector, promise := none } e rfl
  have hrest : (runFires { outcomeRedirector := redirector, promise := none }
      (e :: rest)).promise = some s := by
    simpa [runFires] using runFires_of_settled rest _ s hs
  refine ⟨s, hs, hrest, ?_⟩
  intro thrown
  cases thrown with
  | none => simpa [runAdaptedCall] using hrest
  | some err => simp [runAdaptedCall, hrest, settle]

/-- Counterexample to C2.  Two invocations of adapted callables sharing one
options record, no user-supplied `outcomeRedirector`: the first invocation's
original fires the injected *success* handler, which caches `trueRedirector`
into the shared record; in the second invocation the injected *error*
handler fires, but evaluates the cached `trueRedirector` and therefore
*fulfills* its Deferred Value instead of rejecting it — refuting the claim
that firing the injected error handler always rejects regardless of earlier
invocations of sibling adapted functions sharing the options record. -/
theorem errorHandler_fulfills_after_poisoning :
    (runInvocations none
      [{ fires := [FireEvent.success []], thrown := none },
       { fires := [FireEvent.failure []], thrown := none }]).2 =
      [some (Settlement.fulfilledWith []), some (Settlement.fulfilledWith [])]
  ∧ some (Settlement.fulfilledWith ([] : List Value)) ≠
      some (Settlement.rejectedWithArgs ([] : List Value)) :=
  ⟨rfl, by decide⟩

/-- C2 (amended).  With no user-supplied `outcomeRedirector`, a firing that
occurs while the shared options record's redirector slot is still unset
behaves as claimed — the injected error handler rejects and the injected
success handler fulfills the Deferred Value — and that firing caches its
own default redirector (constant-false resp. constant-true) into the shared
record, which then governs every later firing of every adapted callable
sharing the record. -/
theorem defaultRedirector_first_firing (args : List Value) :
    (fireInjected { outcomeRedirector := none, promise := none }
        (FireEvent.failure args)).promise = some (Settlement.rejectedWithArgs args)
  ∧ (fireInjected { outcomeRedirector := none, promise := none }
        (FireEvent.success args)).promise = some (Settlement.fulfilledWith args)
  ∧ (fireInjected { outcomeRedirector := none, promise := none }
        (FireEvent.failure args)).outcomeRedirector = some falseRedirector
  ∧ (fireInjected { outcomeRedirector := none, promise := none }
        (FireEvent.success args)).outcomeRedirector = some trueRedirector :=
  ⟨rfl, rfl, rfl, rfl⟩

/-- Counterexample to C4.  An original that first fires the injected success
handler and then throws: the Deferred Value is already fulfilled when the
`Promise` executor catches the exception, so the rejection attempt is a
no-op — the Deferred Value does *not* reject with the thrown error,
refuting the claim for every original that throws synchronously. -/
theorem throw_after_settlement_swallowed :
    (runAdaptedCall none
        { fires := [FireEvent.success []], thrown := some (Value.vStr "boom") }).promise =
      some (Settlement.fulfilledWith [])
  ∧ some (Settlement.fulfilledWith ([] : List Value)) ≠
      some (Settlement.rejectedWithError (Value.vStr "boom")) :=
  ⟨rfl, by decide⟩

/-- C4 (amended).  If the original callable throws synchronously and no
injected-handler firing has settled the Deferred Value before the throw,
the Deferred Value rejects with the thrown error; in every case the
exception is caught by the promise executor and never propagates
synchronously to the adapted call's caller (the adapted call always returns
the Deferred Value). -/
theorem throw_rejects_when_pending (redirector : Option Redirector)
    (beh : OriginalBehavior) (e : Value) (hthrow : beh.thrown = some e)
    (hpending :
      (runFires { outcomeRedirector := redirector, promise := none }
        beh.fires).promise = none) :
    (runAdaptedCall redirector beh).promise = some (Settlement.rejectedWithError e) := by
  simp [runAdaptedCall, hthrow, settle, hpending]

/-- Witness for the amended C4 at a concrete input: an original that throws
the string `"err"` without firing any handler rejects the Deferred Value
with that error. -/
theorem throw_rejects_when_pending_witness :
    (runAdaptedCall none { fires := [], thrown := some (Value.vStr "err") }).promise =
      some (Settlement.rejectedWithError (Value.vStr "err")) :=
  throw_rejects_when_pending none { fires := [], thrown := some (Value.vStr "err") }
    (Value.vStr "err") rfl rfl

/-- C8.  Under the `Promiseify.nodeStyle` preset the options record carries
the error-first redirector `error => !error`; firing *either* injected
handler on a pending Deferred Value rejects with the result arguments when
the first result argument is truthy and fulfills when it is falsy or absent
— independent of which physical handler fired. -/
theorem nodeStyle_outcome (st : CallState) (args : List Value)
    (hr : st.outcomeRedirector = some nodeRedirector) (hp : st.promise = none) :
    (fireInjected st (FireEvent.success args)).promise =
      (if truthy (argAt args 0) then some (Settlement.rejectedWithArgs args)
        else some (Settlement.fulfilledWith args))
  ∧ (fireInjected st (FireEvent.failure args)).promise =
      (if truthy (argAt args 0) then some (Settlement.rejectedWithArgs args)
        else some (Settlement.fulfilledWith args)) := by
  by_cases h : truthy (argAt args 0) = true
  · constructor <;> simp [fireInjected, hr, nodeRedirector, h, settle, hp]
  · constructor <;> simp [fireInjected, hr, nodeRedirector, h, settle, hp]

/-- Witness for C8 at concrete inputs: with a truthy first result argument
the error-first preset rejects even via the injected success handler; with
no result arguments it fulfills even via the injected error handler. -/
theorem nodeStyle_outcome_witness :
    (fireInjected { outcomeRedirector := some nodeRedirector, promise := none }
        (FireEvent.success [Value.vStr "boom"])).promise =
      some (Settlement.rejectedWithArgs [Value.vStr "boom"])
  ∧ (fireInjected { outcomeRedirector := some nodeRedirector, promise := none }
        (FireEvent.failure [])).promise = some (Settlement.fulfilledWith []) := by
  have h1 := nodeStyle_outcome
    { outcomeRedirector := some nodeRedirector, promise := none } [Value.vStr "boom"] rfl rfl
  have h2 := nodeStyle_outcome
    { outcomeRedirector := some nodeRedirector, promise := none } [] rfl rfl
  exact ⟨by simpa [truthy, argAt] using h1.1, by simpa [truthy, argAt] using h2.2⟩

/-- C3.  Each adapted call invokes the original exactly once, synchronously
(the single invocation happens inside the promise executor, which runs on
the same call stack), with the forwarded arguments followed by exactly two
injected trailing arguments, both callable; a zero-argument adapted call
passes the original exactly the two callable injected handlers. -/
theorem original_invoked_once (args : List Value) :
    (originalInvocations args).length = 1
  ∧ originalInvocations args = [originalCallArguments args]
  ∧ (originalCallArguments args).length =
      (classifyArguments args).executionArguments.length + 2
  ∧ (∀ v ∈ injectedTrailingHandlers, isFunction v = true)
  ∧ (args = [] →
      originalCallArguments args = [Value.vInjectedSuccess, Value.vInjectedError]
    ∧ ∀ v ∈ originalCallArguments args, isFunction v = true) := by
  refine ⟨rfl, rfl, ?_, by decide, ?_⟩
  · simp [originalCallArguments, injectedTrailingHandlers]
  · rintro rfl
    exact ⟨rfl, by decide⟩

/-- Witness for C3 at a concrete input: the zero-argument adapted call
invokes the original once, with exactly the two callable injected
handlers. -/
theorem original_invoked_once_witness :
    (originalInvocations []).length = 1
  ∧ originalCallArguments [] = [Value.vInjectedSuccess, Value.vInjectedError] :=
  ⟨(original_invoked_once []).1, ((original_invoked_once []).2.2.2.2 rfl).1⟩

/-- Counterexample to C5.  `typeof null === 'object'` and
`typeof [] === 'object'`, so `isObject` accepts both and `doPromiseify`
takes the object branch for `null` and for arrays instead of throwing the
type error the claim requires for them. -/
theorem null_and_array_take_object_branch :
    promiseifyDispatch Value.vNull = DispatchResult.objectBranch
  ∧ promiseifyDispatch (Value.vArr 0) = DispatchResult.objectBranch
  ∧ DispatchResult.objectBranch ≠
      DispatchResult.thrown ("Cannot promiseify type: " ++ getType Value.vNull) :=
  ⟨rfl, rfl, by decide⟩

/-- C5 (amended).  `doPromiseify` throws the error naming the actual type
(`'Cannot promiseify type: ' + getType(target)`) exactly for the targets
whose `typeof` is neither `'function'` nor `'object'` — booleans, numbers,
strings, `undefined`.  `null` and arrays report `typeof` `'object'`, pass
the `isObject` test and take the object branch instead of throwing. -/
theorem dispatch_throw_iff (v : Value) :
    promiseifyDispatch v = DispatchResult.thrown ("Cannot promiseify type: " ++ getType v)
      ↔ isFunction v = false ∧ isObject v = false := by
  cases hf : isFunction v <;> cases ho : isObject v <;>
    simp [promiseifyDispatch, hf, ho]

/-- Witness for the amended C5 at a concrete input: adapting a number
throws the type error naming `number`. -/
theorem dispatch_throw_iff_witness :
    promiseifyDispatch (Value.vNum 3) =
      DispatchResult.thrown ("Cannot promiseify type: " ++ getType (Value.vNum 3)) :=
  (dispatch_throw_iff (Value.vNum 3)).mpr (by decide)

/-- Every callable value is truthy, so the `!!(target[name])` filter of
`getAllFunctionNames` is absorbed by the `isFunction` filter. -/
theorem truthy_of_isFunction (v : Value) (h : isFunction v = true) : truthy v = true := by
  cases v <;> simp_all [isFunction, getType, truthy]

/-- A name absent from a level's own property names reads as `undefined`. -/
theorem ownGet_of_not_mem (level : Level) (n : String) (h : n ∉ ownNames level) :
    ownGet level n = Value.vUndefined := by
  induction level with
  | nil => rfl
  | cons p rest ih =>
      obtain ⟨m, w⟩ := p
      simp only [ownNames, List.map_cons, List.mem_cons] at h
      push_neg at h
      have hne : (n == m) = false := by
        simpa using h.1
      simpa [ownGet, List.lookup, hne] using ih (by simpa [ownNames] using h.2)

/-- Membership in one collection step: a name is collected at a level iff it
was already collected, or its value at that level is callable and the name
is not defined by `Object.prototype`. -/
theorem mem_collectLevel (acc : List String) (level : Level) (n : String) :
    n ∈ collectLevel acc level ↔
      n ∈ acc ∨ (isFunction (ownGet level n) = true
        ∧ n ∉ OBJECT_PROTOTYPE_FUNCTION_NAMES) := by
  constructor
  · intro h
    rcases List.mem_append.mp h with h | h
    · exact .inl h
    · obtain ⟨_, hpred⟩ := List.mem_filter.mp h
      simp only [Bool.and_eq_true, Bool.not_eq_true', List.elem_eq_mem,
        decide_eq_false_iff_not] at hpred
      exact .inr ⟨hpred.1.1.2, hpred.1.2⟩
  · intro h
    rcases h with h | ⟨hf, hobj⟩
    · exact List.mem_append.mpr (.inl h)
    · by_cases ha : n ∈ acc
      · exact List.mem_append.mpr (.inl ha)
      · refine List.mem_append.mpr (.inr (List.mem_filter.mpr ⟨?_, ?_⟩))
        · by_contra hn
          rw [ownGet_of_not_mem level n hn] at hf
          exact absurd hf (by decide)
        · simp only [Bool.and_eq_true, Bool.not_eq_true', List.elem_eq_mem,
            decide_eq_false_iff_not]
          exact ⟨⟨⟨truthy_of_isFunction _ hf, hf⟩, hobj⟩, ha⟩

/-- One collection step preserves freedom from duplicates (given that the
level's own property names are themselves duplicate-free, as JavaScript
guarantees for `Object.getOwnPropertyNames`). -/
theorem nodup_collectLevel (acc : List String) (level : Level)
    (hacc : acc.Nodup) (hlevel : (ownNames level).Nodup) :
    (collectLevel acc level).Nodup := by
  refine List.Nodup.append hacc (hlevel.filter _) ?_
  intro n hn hm
  obtain ⟨_, hpred⟩ := List.mem_filter.mp hm
  simp only [Bool.and_eq_true, Bool.not_eq_true', List.elem_eq_mem,
    decide_eq_false_iff_not] at hpred
  exact hpred.2 hn

/-- Membership across the whole chain walk: a name is collected iff some
level holds it with a callable value and it is not defined by
`Object.prototype`. -/
theorem mem_foldl_collect (chain : List Level) :
    ∀ (acc : List String) (n : String),
      n ∈ chain.foldl collectLevel acc ↔
        n ∈ acc ∨ ((∃ level ∈ chain, isFunction (ownGet level n) = true)
          ∧ n ∉ OBJECT_PROTOTYPE_FUNCTION_NAMES) := by
  induction chain with
  | nil => intro acc n; simp
  | cons level rest ih =>
      intro acc n
      rw [List.foldl_cons, ih, mem_collectLevel]
      constructor
      · rintro (⟨h | ⟨hf, hobj⟩⟩ | ⟨⟨l, hl, hfl⟩, hobj⟩)
        · exact .inl h
        · exact .inr ⟨⟨level, List.mem_cons_self _ _, hf⟩, hobj⟩
        · exact .inr ⟨⟨l, List.mem_cons_of_mem _ hl, hfl⟩, hobj⟩
      · rintro (h | ⟨⟨l, hl, hfl⟩, hobj⟩)
        · exact .inl (.inl h)
        · rcases List.mem_cons.mp hl with rfl | hl
          · exact .inl (.inr ⟨hfl, hobj⟩)
          · exact .inr ⟨⟨l, hl, hfl⟩, hobj⟩

/-- The whole chain walk collects no duplicate names. -/
theorem nodup_foldl_collect (chain : List Level)
    (hchain : ∀ level ∈ chain, (ownNames level).Nodup) :
    ∀ acc : List String, acc.Nodup → (chain.foldl collectLevel acc).Nodup := by
  induction chain with
  | nil => intro acc h; simpa using h
  | cons level rest ih =>
      intro acc hacc
      rw [List.foldl_cons]
      exact ih (fun l hl => hchain l (List.mem_cons_of_mem _ hl)) _
        (nodup_collectLevel acc level hacc (hchain level (List.mem_cons_self _ _)))

/-- C6.  On every structured target (prototype chain with duplicate-free
own-property names per level, as JavaScript guarantees),
`getAllFunctionNames` returns exactly the names whose value at some level
of the chain is callable, excluding the names defined by
`Object.prototype`, without duplicates and in lexicographic order. -/
theorem getAllFunctionNames_spec (chain : List Level)
    (hchain : ∀ level ∈ chain, (ownNames level).Nodup) :
    (∀ n, n ∈ getAllFunctionNames chain ↔
      (n ∉ OBJECT_PROTOTYPE_FUNCTION_NAMES
        ∧ ∃ level ∈ chain, isFunction (ownGet level n) = true))
  ∧ (getAllFunctionNames chain).Nodup
  ∧ (getAllFunctionNames chain).Sorted (· ≤ ·) := by
  refine ⟨?_, ?_, ?_⟩
  · intro n
    unfold getAllFunctionNames
    rw [List.mem_insertionSort, mem_foldl_collect]
    simp only [List.not_mem_nil, false_or]
    tauto
  · exact (List.perm_insertionSort _ _).symm.nodup
      (nodup_foldl_collect chain hchain [] List.nodup_nil)
  · exact List.sorted_insertionSort _ _

/-- Witness for C6 at a concrete input: a two-level chain whose base level
holds the callable `save` and a non-callable `version`, and whose ancestor
level holds the callable `load` and a callable `toString` (excluded as an
`Object.prototype` name): `load` is enumerated, `toString` and `version`
are not, and the result has no duplicates. -/
theorem getAllFunctionNames_spec_witness :
    ("load" ∈ getAllFunctionNames
        [[("save", Value.vFun 1), ("version", Value.vNum 2)],
         [("load", Value.vFun 3), ("toString", Value.vFun 4)]]
      ∧ "save" ∈ getAllFunctionNames
        [[("save", Value.vFun 1), ("version", Value.vNum 2)],
         [("load", Value.vFun 3), ("toString", Value.vFun 4)]])
  ∧ ("toString" ∉ getAllFunctionNames
        [[("save", Value.vFun 1), ("version", Value.vNum 2)],
         [("load", Value.vFun 3), ("toString", Value.vFun 4)]]
      ∧ "version" ∉ getAllFunctionNames
        [[("save", Value.vFun 1), ("version", Value.vNum 2)],
         [("load", Value.vFun 3), ("toString", Value.vFun 4)]])
  ∧ (getAllFunctionNames
        [[("save", Value.vFun 1), ("version", Value.vNum 2)],
         [("load", Value.vFun 3), ("toString", Value.vFun 4)]]).Nodup := by
  have h := getAllFunctionNames_spec
    [[("save", Value.vFun 1), ("version", Value.vNum 2)],
     [("load", Value.vFun 3), ("toString", Value.vFun 4)]] (by decide)
  refine ⟨⟨(h.1 "load").mpr ?_, (h.1 "save").mpr ?_⟩, ⟨?_, ?_⟩, h.2.1⟩
  · exact ⟨by decide, by decide⟩
  · exact ⟨by decide, by decide⟩
  · intro hmem
    have := (h.1 "toString").mp hmem
    revert this
    decide
  · intro hmem
    have := (h.1 "version").mp hmem
    revert this
    decide

/-- Reading back the written property yields the written value. -/
theorem lookup_setProp_self (props : List (String × Value)) (n : String) (v : Value) :
    (setProp props n v).lookup n = some v := by
  induction props with
  | nil => simp [setProp, List.lookup]
  | cons p rest ih =>
      obtain ⟨m, w⟩ := p
      by_cases h : m = n
      · subst h
        simp [setProp, List.lookup]
      · have hne : (n == m) = false := by
          simpa using fun hc => h hc.symm
        simp [setProp, h, List.lookup, hne, ih]

/-- Writing one property leaves every other property unchanged. -/
theorem lookup_setProp_other (props : List (String × Value)) (n k : String) (v : Value)
    (hk : k ≠ n) : (setProp props n v).lookup k = props.lookup k := by
  induction props with
  | nil =>
      have hne : (k == n) = false := by simpa using hk
      simp [setProp, List.lookup, hne]
  | cons p rest ih =>
      obtain ⟨m, w⟩ := p
      by_cases h : m = n
      · subst h
        have hne : (k == m) = false := by simpa using hk
        simp [setProp, List.lookup, hne]
      · by_cases hkm : k = m
        · subst hkm
          simp [setProp, h, List.lookup]
        · have hne : (k == m) = false := by simpa using hkm
          simp [setProp, h, List.lookup, hne, ih]

/-- `objGet` after `objSet` at the same name. -/
theorem objGet_objSet_self (o : JSObj) (n : String) (v : Value) :
    objGet (objSet o n v) n = v := by
  simp [objGet, objSet, ownGet, lookup_setProp_self]

/-- `objGet` after `objSet` at a different name. -/
theorem objGet_objSet_other (o : JSObj) (n k : String) (v : Value) (hk : k ≠ n) :
    objGet (objSet o n v) k = objGet o k := by
  simp [objGet, objSet, ownGet, lookup_setProp_other o.props n k v hk]

/-- The wrapped form of a value is a distinct value (a fresh closure, not
the original function reference). -/
theorem vWrapped_ne (v : Value) : Value.vWrapped v ≠ v := by
  intro h
  have hs : sizeOf (Value.vWrapped v) = sizeOf v := congrArg sizeOf h
  rw [Value.vWrapped.sizeOf_spec] at hs
  omega

/-- A wrapping step never changes a property whose current value (at any
point of the loop) is not callable, and never changes any property other
than the one it wraps. -/
theorem objGet_wrapStep_of_not_function (o : JSObj) (n m : String)
    (h : isFunction (objGet o n) = false) :
    objGet (wrapStep o m) n = objGet o n := by
  unfold wrapStep
  split
  · rename_i hm
    by_cases hnm : n = m
    · subst hnm
      rw [h] at hm
      cases hm
    · exact objGet_objSet_other o m n _ hnm
  · rfl

/-- The whole wrapping loop leaves every name whose value in the original
object is not callable untouched. -/
theorem objGet_foldl_wrapStep (names : List String) :
    ∀ (o : JSObj) (n : String), isFunction (objGet o n) = false →
      objGet (names.foldl wrapStep o) n = objGet o n := by
  induction names with
  | nil => intro o n _; rfl
  | cons m rest ih =>
      intro o n h
      have hstep := objGet_wrapStep_of_not_function o n m h
      rw [List.foldl_cons, ih (wrapStep o m) n (by rw [hstep]; exact h), hstep]

/-- The wrapping loop mutates the target in place: the reference identity
of the object is preserved. -/
theorem ref_foldl_wrapStep (names : List String) :
    ∀ o : JSObj, (names.foldl wrapStep o).ref = o.ref := by
  induction names with
  | nil => intro o; rfl
  | cons m rest ih =>
      intro o
      rw [List.foldl_cons, ih]
      unfold wrapStep
      split <;> rfl

/-- C7.  Adapting a structured object with `only: ["save"]` replaces the
`save` member with the wrapped adaptation — a reference distinct from the
original callable — leaves every other member unchanged (same reference as
before adaptation), and returns the mutated object itself (same reference
identity). -/
theorem only_save_adaptation (o : JSObj) (f : Value)
    (hf : isFunction f = true) (hsave : objGet o "save" = f) :
    (promiseifyObject o { only := some ["save"] }).ref = o.ref
  ∧ objGet (promiseifyObject o { only := some ["save"] }) "save" = Value.vWrapped f
  ∧ Value.vWrapped f ≠ f
  ∧ ∀ n, n ≠ "save" → objGet (promiseifyObject o { only := some ["save"] }) n = objGet o n := by
  have hrun : promiseifyObject o { only := some ["save"] } =
      objSet o "save" (Value.vWrapped (objGet o "save")) := by
    unfold promiseifyObject computeTargetFunctions
    simp [wrapStep, hsave, hf]
  refine ⟨?_, ?_, vWrapped_ne f, ?_⟩
  · rw [hrun]
    rfl
  · rw [hrun, objGet_objSet_self, hsave]
  · intro n hn
    rw [hrun, objGet_objSet_other o "save" n _ hn]

/-- Witness for C7 at a concrete input: an object with members `save`
(callable), `load` (callable) and `version` (a number), adapted with
`only: ["save"]`: the object keeps its identity, `save` becomes the
distinct wrapped reference, and `load` and `version` keep their original
references. -/
theorem only_save_adaptation_witness :
    (promiseifyObject
        { ref := 5
          props := [("save", Value.vFun 1), ("load", Value.vFun 2), ("version", Value.vNum 3)] }
        { only := some ["save"] }).ref = 5
  ∧ objGet (promiseifyObject
        { ref := 5
          props := [("save", Value.vFun 1), ("load", Value.vFun 2), ("version", Value.vNum 3)] }
        { only := some ["save"] }) "save" = Value.vWrapped (Value.vFun 1)
  ∧ Value.vWrapped (Value.vFun 1) ≠ Value.vFun 1
  ∧ objGet (promiseifyObject
        { ref := 5
          props := [("save", Value.vFun 1), ("load", Value.vFun 2), ("version", Value.vNum 3)] }
        { only := some ["save"] }) "load" = Value.vFun 2 := by
  have h := only_save_adaptation
    { ref := 5
      props := [("save", Value.vFun 1), ("load", Value.vFun 2), ("version", Value.vNum 3)] }
    (Value.vFun 1) (by decide) (by decide)
  exact ⟨h.1, h.2.1, h.2.2.1, h.2.2.2 "load" (by decide)⟩

/-- C10.  When `options.only` names a member that does not currently
resolve to a callable (including an absent member), the object branch
skips it silently: the `only` list is taken verbatim, but each selected
name is re-checked with `isFunction` immediately before wrapping, so the
property is left unchanged, no error is raised, and the same object is
returned. -/
theorem only_noncallable_skipped (o : JSObj) (names : List String) (n : String)
    (_hn : n ∈ names) (hnc : isFunction (objGet o n) = false) :
    objGet (promiseifyObject o { only := some names }) n = objGet o n
  ∧ (promiseifyObject o { only := some names }).ref = o.ref := by
  have hctf : computeTargetFunctions o { only := some names } = names := rfl
  unfold promiseifyObject
  rw [hctf]
  exact ⟨objGet_foldl_wrapStep names o n hnc, ref_foldl_wrapStep names o⟩

/-- Witness for C10 at a concrete input: `only: ["save", "missing"]` on an
object whose `save` member is the number `7` and which has no `missing`
member leaves `save` untouched and returns the same object. -/
theorem only_noncallable_skipped_witness :
    objGet (promiseifyObject { ref := 2, props := [("save", Value.vNum 7)] }
        { only := some ["save", "missing"] }) "save" = Value.vNum 7
  ∧ (promiseifyObject { ref := 2, props := [("save", Value.vNum 7)] }
        { only := some ["save", "missing"] }).ref = 2 := by
  have h := only_noncallable_skipped { ref := 2, props := [("save", Value.vNum 7)] }
    ["save", "missing"] "save" (by decide) (by decide)
  exact ⟨h.1, h.2⟩
